import Mathlib

/-
Verification of the pending-attestation lifecycle manager
(fiatjaf/predictions_nbot, main.go — the revision with the "data/" files
subdirectory and the required SECRET_KEY tag).

The program's two loops (ingestion and hourly maturation) are embedded as
pure functions.  External collaborators (the opentimestamps library, the
nostr relay pool, HTTP fetches, signature creation, the filesystem write
syscalls) are modelled as oracle fields of a `World` record, exactly at the
call boundaries of the source; the control flow between those calls is
translated line by line from main.go.  Filesystem state is an association
list from path to byte content; every externally visible action is recorded
as an `Effect`.
-/

namespace PNbot

/-! ## Bytes, hex, base64, small string helpers -/

abbrev Bytes := List Nat

/-- Decoding of one hex character, as in Go's encoding/hex fromHexChar:
digits, lowercase and uppercase letters are accepted. -/
def fromHexChar (c : Char) : Option Nat :=
  if '0' ≤ c ∧ c ≤ '9' then some (c.toNat - '0'.toNat)
  else if 'a' ≤ c ∧ c ≤ 'f' then some (c.toNat - 'a'.toNat + 10)
  else if 'A' ≤ c ∧ c ≤ 'F' then some (c.toNat - 'A'.toNat + 10)
  else none

/-- Go's `hex.DecodeString(s)` with the error discarded: the bytes decoded
before the first malformed pair (or before a trailing odd character) are
returned.  This matches encoding/hex, which decodes pair by pair and, on
error, returns the bytes decoded so far. -/
def hexDecodePartial : List Char → Bytes
  | a :: b :: rest =>
    match fromHexChar a, fromHexChar b with
    | some x, some y => (16 * x + y) :: hexDecodePartial rest
    | _, _ => []
  | _ => []

/-- Strict hex decoding: fails on any malformed character or odd length. -/
def hexDecodeFull : List Char → Option Bytes
  | [] => some []
  | [_] => none
  | a :: b :: rest =>
    match fromHexChar a, fromHexChar b, hexDecodeFull rest with
    | some x, some y, some tail => some ((16 * x + y) :: tail)
    | _, _, _ => none

/-- Whether a string is 64 characters of valid hex (a well-formed id). -/
def isHex64 (s : String) : Bool :=
  s.toList.length == 64 && s.toList.all (fun c => (fromHexChar c).isSome)

/-- Go's `var digest [32]byte; copy(digest[:], id)`: the decoded bytes are
copied into a zero-initialized 32-byte array (truncated at 32). -/
def digest32 (bs : Bytes) : Bytes :=
  bs.take 32 ++ List.replicate (32 - bs.length) 0

def b64Alphabet : List Char :=
  "ABCDEFGHIJKLMNOPQRSTUVWXYZabcdefghijklmnopqrstuvwxyz0123456789+/".toList

def b64Char (n : Nat) : Char := b64Alphabet.getD n '?'

/-- Standard base64 of a byte list (encoding/base64 StdEncoding). -/
def base64Chunks : Bytes → List Char
  | a :: b :: c :: rest =>
      let n := a % 256 * 65536 + b % 256 * 256 + c % 256
      b64Char (n / 262144) :: b64Char (n / 4096 % 64) :: b64Char (n / 64 % 64) ::
        b64Char (n % 64) :: base64Chunks rest
  | [a, b] =>
      let n := a % 256 * 65536 + b % 256 * 256
      [b64Char (n / 262144), b64Char (n / 4096 % 64), b64Char (n / 64 % 64), '=']
  | [a] =>
      let n := a % 256 * 65536
      [b64Char (n / 262144), b64Char (n / 4096 % 64), '=', '=']
  | [] => []

def base64Encode (bs : Bytes) : String := ⟨base64Chunks bs⟩

/-- Identification of strings with their byte content (file contents that the
program round-trips as text). -/
def strBytes (s : String) : Bytes := s.toList.map Char.toNat

def bytesToStr (bs : Bytes) : String := ⟨bs.map Char.ofNat⟩

/-- Character-level model of strings.HasPrefix. -/
def listHasPre : List Char → List Char → Bool
  | [], _ => true
  | _ :: _, [] => false
  | p :: ps, c :: cs => p == c && listHasPre ps cs

def strHasPre (p s : String) : Bool := listHasPre p.toList s.toList

def strHasSuf (p s : String) : Bool := listHasPre p.toList.reverse s.toList.reverse

def isSpaceChar (c : Char) : Bool := c == ' ' || c == '\t' || c == '\n' || c == '\r'

/-- Model of strings.TrimSpace on the whitespace the program can encounter. -/
def trimChars (cs : List Char) : List Char :=
  ((cs.dropWhile isSpaceChar).reverse.dropWhile isSpaceChar).reverse

def strTrim (s : String) : String := ⟨trimChars s.toList⟩

/-! ## Data model -/

/-- Terminal marker of one step of an attestation sequence: either a pending
calendar commitment or a concrete bitcoin block attestation. -/
inductive Attestation where
  | pending (url : String)
  | bitcoin (height : Nat)
deriving DecidableEq, Repr

/-- An attestation sequence, reduced to the chain of its steps' attestations
(the only part of a step the program's control flow can observe). -/
abbrev Sequence := List Attestation

/-- opentimestamps.File: a digest with its attestation sequences. -/
structure OtsFile where
  digest : Bytes
  sequences : List Sequence
deriving DecidableEq, Repr

/-- nostr.Event, restricted to the fields the program reads or writes. -/
structure NEvent where
  id        : String
  pubkey    : String
  createdAt : Nat
  kind      : Nat
  content   : String
  tags      : List (List String)
  sig       : String
deriving DecidableEq, Repr

/-- go-nostr publish statuses; the source compares against Succeeded only. -/
inductive PubStatus where
  | sent
  | succeeded
  | failed
deriving DecidableEq, Repr

/-- Externally visible actions of the two loops, in program order. -/
inductive Effect where
  | upgradeCall (id : String) (seq : Sequence)
  | stampCall (digest : Bytes)
  | writeFile (path : String) (content : Bytes)
  | removeFile (path : String)
  | publishAttempt (relayUrl : String) (ev : NEvent) (result : Option PubStatus)
deriving DecidableEq, Repr

/-- The only panic reachable from inside a maturation cycle:
`panic(fmt.Errorf("failed to sign: %w", err))`. -/
inductive SignPanic where
  | failedToSign (ev : NEvent)
deriving DecidableEq, Repr

/-- Oracles for every external call site of the source.  `none` (or `false`)
models the call returning a non-nil error. -/
structure World where
  parseOts    : Bytes → Option OtsFile
  parseEvent  : Bytes → Option NEvent
  upgrade     : Sequence → Bytes → Option Sequence
  ensureRelay : String → Bool
  signEvent   : NEvent → Option NEvent
  publish     : String → NEvent → Option PubStatus
  serialize   : OtsFile → Bytes
  stamp       : Bytes → Option Sequence
  writeOk     : String → Bool
  now         : Nat

/-! ## Filesystem -/

abbrev FS := List (String × Bytes)

def fsGet (fs : FS) (p : String) : Option Bytes :=
  (fs.find? (fun kv => kv.1 == p)).map (fun kv => kv.2)

def fsHas (fs : FS) (p : String) : Bool :=
  (fs.find? (fun kv => kv.1 == p)).isSome

def fsWrite (fs : FS) (p : String) (b : Bytes) : FS :=
  (p, b) :: fs.filter (fun kv => kv.1 != p)

def fsRemove (fs : FS) (p : String) : FS :=
  fs.filter (fun kv => kv.1 != p)

def applyEffect (fs : FS) : Effect → FS
  | Effect.writeFile p b => fsWrite fs p b
  | Effect.removeFile p => fsRemove fs p
  | _ => fs

def applyEffects (fs : FS) (fx : List Effect) : FS := fx.foldl applyEffect fs

/-! ## Storage layout constants (the source's consts) -/

def filesSubdir : String := "data/"
def otsPre : String := "time-"
def otsSuf : String := ".ots"
def relayPre : String := "relay-"
def relaySuf : String := ".txt"
def eventPre : String := "event-"
def eventSuf : String := ".json"

def otsPath (id : String) : String := filesSubdir ++ otsPre ++ id ++ otsSuf
def relayPath (id : String) : String := filesSubdir ++ relayPre ++ id ++ relaySuf
def eventPath (id : String) : String := filesSubdir ++ eventPre ++ id ++ eventSuf

/-- Dedup-guard path exactly as written in the ingestion loop:
`os.Stat(PREFIX_OTS + event.ID + SUFFIX_OTS)` — note the missing
FILES_SUBDIR, unlike every write and read path. -/
def statOtsPath (id : String) : String := otsPre ++ id ++ otsSuf

/-- Identifier extraction `filename[len(PREFIX_OTS) : len(filename)-len(SUFFIX_OTS)]`. -/
def extractId (filename : String) : String :=
  let cs := filename.toList
  ⟨(cs.drop otsPre.toList.length).take (cs.length - otsPre.toList.length - otsSuf.toList.length)⟩

/-- Identifiers the maturation loop accepts for processing out of a directory
listing: entries with the proof prefix/suffix whose middle part has length
64.  This mirrors the two guards at the top of the per-file body. -/
def scanIds (names : List String) : List String :=
  ((names.filter (fun n => strHasPre otsPre n && strHasSuf otsSuf n)).map extractId).filter
    (fun id => id.toList.length == 64)

/-! ## Maturation loop (the hourly goroutine) -/

/-- The kind-1040 completion event built after a successful upgrade, before
signing: `nostr.Event{CreatedAt: nostr.Now(), Kind: 1040, Content:
base64(file.SerializeToFile()), Tags: [["e", event.ID, eventRelay], ["p",
event.PubKey], ["block", blockHeight, blockHash]]}` where `file` wraps the
digest with the single upgraded sequence. -/
def completionEvent (w : World) (dg : Bytes) (newSeq : Sequence)
    (orig : NEvent) (eventRelay blockHeight blockHash : String) : NEvent :=
  ⟨"", "", w.now, 1040,
   base64Encode (w.serialize ⟨dg, [newSeq]⟩),
   [["e", orig.id, eventRelay], ["p", orig.pubkey], ["block", blockHeight, blockHash]], ""⟩

/-- The inner `for _, seq := range ots.Sequences` loop.  An upgrade error or
an EnsureRelay error `continue`s to the next sequence; a sign error panics;
after a publish attempt the loop `break`s unconditionally, deleting the
record's three artifacts first when the publish returned a nil error and
status Succeeded. -/
def seqLoop (w : World) (id : String) (dg : Bytes) (orig : NEvent)
    (er bh bhash : String) : List Sequence → Except SignPanic (List Effect)
  | [] => Except.ok []
  | seq :: rest =>
    match w.upgrade seq dg with
    | none =>
      match seqLoop w id dg orig er bh bhash rest with
      | Except.error p => Except.error p
      | Except.ok fx => Except.ok (Effect.upgradeCall id seq :: fx)
    | some newSeq =>
      if w.ensureRelay er then
        match w.signEvent (completionEvent w dg newSeq orig er bh bhash) with
        | none => Except.error (SignPanic.failedToSign (completionEvent w dg newSeq orig er bh bhash))
        | some sev =>
          let r := w.publish er sev
          if r == some PubStatus.succeeded then
            Except.ok [Effect.upgradeCall id seq, Effect.publishAttempt er sev r,
              Effect.removeFile (otsPath id), Effect.removeFile (relayPath id),
              Effect.removeFile (eventPath id)]
          else
            Except.ok [Effect.upgradeCall id seq, Effect.publishAttempt er sev r]
      else
        match seqLoop w id dg orig er bh bhash rest with
        | Except.error p => Except.error p
        | Except.ok fx => Except.ok (Effect.upgradeCall id seq :: fx)

/-- Per-directory-entry body of the maturation cycle: filename filter, id
length guard, the three artifact reads with their parses (any failure skips
the record, leaving it untouched), then the sequence loop. -/
def procFile (w : World) (fs : FS) (bh bhash : String) (fn : String) :
    Except SignPanic (List Effect) :=
  if strHasPre otsPre fn && strHasSuf otsSuf fn then
    let id := extractId fn
    if id.toList.length == 64 then
      match fsGet fs (otsPath id) with
      | none => Except.ok []
      | some data =>
        match w.parseOts data with
        | none => Except.ok []
        | some ots =>
          match fsGet fs (eventPath id) with
          | none => Except.ok []
          | some evb =>
            match w.parseEvent evb with
            | none => Except.ok []
            | some orig =>
              match fsGet fs (relayPath id) with
              | none => Except.ok []
              | some rb =>
                seqLoop w id ots.digest orig (strTrim (bytesToStr rb)) bh bhash ots.sequences
    else Except.ok []
  else Except.ok []

/-- Iteration over the directory listing; each record's effects are applied
to the filesystem before the next entry is processed (removals are live). -/
def procFiles (w : World) (fs : FS) (bh bhash : String) :
    List String → Except SignPanic (List Effect)
  | [] => Except.ok []
  | f :: rest =>
    match procFile w fs bh bhash f with
    | Except.error p => Except.error p
    | Except.ok fx =>
      match procFiles w (applyEffects fs fx) bh bhash rest with
      | Except.error p => Except.error p
      | Except.ok more => Except.ok (fx ++ more)

/-- What the cycle does after its body: the success path reaches
`time.Sleep(time.Hour)`; every error path runs `continue`, which jumps back
to the top of the `for` loop immediately, skipping the sleep. -/
inductive NextAct where
  | sleepHour
  | retryNow
deriving DecidableEq, Repr

/-- Inputs of one maturation cycle: the oracles, the `os.ReadDir` result
(entry names inside data/), the two chain-tip fetches (`none` covers both an
http.Get error and a body-read error), and the filesystem. -/
structure CycleIn where
  w : World
  dirListing : Option (List String)
  heightFetch : Option String
  hashFetch : Option String
  fs : FS

structure CycleOut where
  effects : List Effect
  next : NextAct
deriving DecidableEq, Repr

/-- One full maturation cycle, in source order: directory read, height
fetch, hash fetch (each failure `continue`s), then the per-file loop, then
the hour sleep. -/
def runCycle (inp : CycleIn) : Except SignPanic CycleOut :=
  match inp.dirListing with
  | none => Except.ok ⟨[], NextAct.retryNow⟩
  | some files =>
    match inp.heightFetch with
    | none => Except.ok ⟨[], NextAct.retryNow⟩
    | some bh =>
      match inp.hashFetch with
      | none => Except.ok ⟨[], NextAct.retryNow⟩
      | some bhash =>
        match procFiles inp.w inp.fs bh bhash files with
        | Except.error p => Except.error p
        | Except.ok fx => Except.ok ⟨fx, NextAct.sleepHour⟩

/-- The maturation goroutine over a schedule of cycle inputs: a panic in any
cycle terminates the goroutine, so no later cycle runs. -/
def runLoop : List CycleIn → Except SignPanic (List CycleOut)
  | [] => Except.ok []
  | c :: rest =>
    match runCycle c with
    | Except.error p => Except.error p
    | Except.ok o =>
      match runLoop rest with
      | Except.error p => Except.error p
      | Except.ok os => Except.ok (o :: os)

def cycleEffects (inp : CycleIn) : List Effect :=
  match runCycle inp with
  | Except.ok o => o.effects
  | Except.error _ => []

def cyclePanic (inp : CycleIn) : Option SignPanic :=
  match runCycle inp with
  | Except.ok _ => none
  | Except.error p => some p

/-! ## Ingestion loop -/

/-- An inbound message as surfaced by the subscription pool: its id, author,
the relay it was first seen on, and its serialized form (`event.String()`). -/
structure InEvent where
  id : String
  pubkey : String
  relayUrl : String
  serialized : String
deriving DecidableEq, Repr

/-- One iteration of the ingestion loop's per-event body: the dedup stat on
`statOtsPath` (as written, without the data/ subdirectory), the event and
relay writes (failure aborts), the error-discarding hex decode of the id,
the 32-byte zero-padded digest, the stamp call, and the proof write keyed by
the raw id string. -/
def ingestStep (w : World) (fs : FS) (ev : InEvent) : FS × List Effect :=
  if fsHas fs (statOtsPath ev.id) then (fs, [])
  else if w.writeOk (eventPath ev.id) then
    let fs1 := fsWrite fs (eventPath ev.id) (strBytes ev.serialized)
    let fx1 := [Effect.writeFile (eventPath ev.id) (strBytes ev.serialized)]
    if w.writeOk (relayPath ev.id) then
      let fs2 := fsWrite fs1 (relayPath ev.id) (strBytes ev.relayUrl)
      let fx2 := fx1 ++ [Effect.writeFile (relayPath ev.id) (strBytes ev.relayUrl)]
      let idBytes := hexDecodePartial ev.id.toList
      let dg := digest32 idBytes
      match w.stamp dg with
      | none => (fs2, fx2 ++ [Effect.stampCall dg])
      | some sq =>
        let ser := w.serialize ⟨idBytes, [sq]⟩
        if w.writeOk (otsPath ev.id) then
          (fsWrite fs2 (otsPath ev.id) ser,
           fx2 ++ [Effect.stampCall dg, Effect.writeFile (otsPath ev.id) ser])
        else (fs2, fx2 ++ [Effect.stampCall dg])
    else (fs1, fx1)
  else (fs, [])

/-! ## Configuration (envconfig.Process over the Settings struct tags) -/

structure Settings where
  secretKey : String
  calendar : String
  esplora : String
deriving DecidableEq, Repr

def envLookup (env : List (String × String)) (k : String) : Option String :=
  (env.find? (fun kv => kv.1 == k)).map (fun kv => kv.2)

/-- Modelled from the struct tags in the source: SECRET_KEY is
`required:"true"` with no default, CALENDAR and ESPLORA carry defaults.
envconfig.Process fails when a required variable is absent. -/
def processSettings (env : List (String × String)) : Except String Settings :=
  match envLookup env "SECRET_KEY" with
  | none => Except.error "required key SECRET_KEY missing value"
  | some sk =>
    Except.ok ⟨sk,
      (envLookup env "CALENDAR").getD "https://alice.btc.calendar.opentimestamps.org/",
      (envLookup env "ESPLORA").getD "https://blockstream.info/api"⟩

/-- Startup outcome: `fatalConfig` is `log.Fatalf` before anything else runs
(neither loop starts); `running` means both loops were launched with the
processed settings. -/
inductive StartOutcome where
  | fatalConfig (msg : String)
  | running (st : Settings)
deriving DecidableEq, Repr

def mainStart (env : List (String × String)) : StartOutcome :=
  match processSettings env with
  | Except.error e => StartOutcome.fatalConfig e
  | Except.ok st => StartOutcome.running st

end PNbot

namespace PNbot

def isPubAttempt : Effect → Bool
  | Effect.publishAttempt _ _ _ => true
  | _ => false

def isUpgCall : Effect → Bool
  | Effect.upgradeCall _ _ => true
  | _ => false

def isWriteFile : Effect → Bool
  | Effect.writeFile _ _ => true
  | _ => false

def isRemoveFile : Effect → Bool
  | Effect.removeFile _ => true
  | _ => false

def isStampCall : Effect → Bool
  | Effect.stampCall _ => true
  | _ => false

def isPubSuccess : Effect → Bool
  | Effect.publishAttempt _ _ (some PubStatus.succeeded) => true
  | _ => false

def isPendingTerminal (s : Sequence) : Bool :=
  match s.getLast? with
  | some (Attestation.pending _) => true
  | _ => false

def matEffect (e : Effect) : Bool := isUpgCall e || isPubAttempt e || isRemoveFile e

def noUpgAfterPub : List Effect → Bool
  | [] => true
  | e :: rest => if isPubAttempt e then rest.all (fun u => !isUpgCall u) else noUpgAfterPub rest

def okE {A : Type} : Except SignPanic A → Bool
  | Except.ok _ => true
  | Except.error _ => false

/-! ## Concrete probe values used by witnesses and counterexamples -/

def idA : String := ⟨List.replicate 64 'a'⟩
def idZ : String := ⟨List.replicate 64 'z'⟩
def dgA : Bytes := List.replicate 32 170
def seqP : Sequence := [Attestation.pending "cal"]
def seqB : Sequence := [Attestation.bitcoin 800000]
def relayA : String := "wss://r.example"
def origEvA : NEvent := ⟨idA, "pk", 1, 1, "pred", [["t", "prediction"]], "sg"⟩
def otsBytesA : Bytes := [7]
def fnA : String := otsPre ++ idA ++ otsSuf
def fnZ : String := otsPre ++ idZ ++ otsSuf
def fsA : FS := [(otsPath idA, otsBytesA), (eventPath idA, [1]), (relayPath idA, strBytes relayA)]

def wBase : World := {
  parseOts := fun _ => some ⟨dgA, [seqP]⟩
  parseEvent := fun _ => some origEvA
  upgrade := fun _ _ => some seqB
  ensureRelay := fun _ => true
  signEvent := fun e => some { e with id := "sid", sig := "ss" }
  publish := fun _ _ => some PubStatus.succeeded
  serialize := fun f => f.digest ++ [f.sequences.length]
  stamp := fun _ => some seqP
  writeOk := fun _ => true
  now := 99 }

def wPendDel : World := { wBase with upgrade := fun _ _ => some seqP }
def wPendFail : World :=
  { wBase with upgrade := fun _ _ => some seqP, publish := fun _ _ => none }
def wUpgFail : World :=
  { wBase with parseOts := fun _ => some ⟨dgA, [seqP, seqB]⟩, upgrade := fun _ _ => none }
def wConfFail : World := { wBase with publish := fun _ _ => none }
def wSignFail : World := { wBase with signEvent := fun _ => none }

def fxOf (r : Except SignPanic (List Effect)) : List Effect :=
  match r with
  | Except.ok fx => fx
  | Except.error _ => []

def signedOf (w : World) (e : NEvent) : NEvent := (w.signEvent e).getD e

def fxPD : List Effect := fxOf (procFile wPendDel fsA "800001" "hh" fnA)
def fxPF : List Effect := fxOf (procFile wPendFail fsA "800001" "hh" fnA)
def fxUF : List Effect := fxOf (seqLoop wUpgFail idA dgA origEvA relayA "800001" "hh" [seqP, seqB])
def fxB1 : List Effect := fxOf (seqLoop wBase idA dgA origEvA relayA "800001" "hh" [seqP])

def inpPF : CycleIn := ⟨wPendFail, some [fnA], some "800001", some "hh", fsA⟩

def outPF : CycleOut := ⟨cycleEffects inpPF, NextAct.sleepHour⟩

def sevPF : NEvent :=
  signedOf wPendFail (completionEvent wPendFail dgA seqP origEvA relayA "800001" "hh")

def inpHF : CycleIn := ⟨wBase, some [fnA], none, some "hh", fsA⟩

def evA : InEvent := ⟨idA, "pk", relayA, "evjson"⟩

def fs1A : FS := (ingestStep wBase [] evA).1

def inpC7 : CycleIn := ⟨wConfFail, some [fnA], some "800001", some "hh", fsA⟩

def outC7 : CycleOut := ⟨cycleEffects inpC7, NextAct.sleepHour⟩

def fs1C7 : FS := applyEffects fsA (cycleEffects inpC7)

def evZ : InEvent := ⟨"zz", "p", "wss://z", "zjson"⟩

def inpSF : CycleIn := ⟨wSignFail, some [fnA], some "800001", some "hh", fsA⟩

def evSF : NEvent := completionEvent wSignFail dgA seqB origEvA relayA "800001" "hh"

def inpOkB : CycleIn := ⟨wBase, some [fnA], some "800001", some "hh", fsA⟩

theorem seqLoop_mem (w : World) (id : String) (dg : Bytes) (orig : NEvent)
    (er bh bhash : String) (seqs : List Sequence) (fx : List Effect)
    (h : seqLoop w id dg orig er bh bhash seqs = Except.ok fx) :
    ∀ e ∈ fx, matEffect e = true := by
  induction seqs generalizing fx with
  | nil =>
    simp only [seqLoop, Except.ok.injEq] at h
    subst h; intro e he; cases he
  | cons seq rest ih =>
    simp only [seqLoop] at h
    split at h
    · split at h
      · simp at h
      · rename_i fx' hr
        simp only [Except.ok.injEq] at h; subst h
        intro e he
        rcases List.mem_cons.mp he with rfl | h2
        · rfl
        · exact ih fx' hr e h2
    · split at h
      · split at h
        · simp at h
        · rename_i sev hs
          split at h
          · simp only [Except.ok.injEq] at h; subst h
            intro e he
            simp only [List.mem_cons, List.not_mem_nil, or_false] at he
            rcases he with rfl | rfl | rfl | rfl | rfl <;> rfl
          · simp only [Except.ok.injEq] at h; subst h
            intro e he
            simp only [List.mem_cons, List.not_mem_nil, or_false] at he
            rcases he with rfl | rfl <;> rfl
      · split at h
        · simp at h
        · rename_i fx' hr
          simp only [Except.ok.injEq] at h; subst h
          intro e he
          rcases List.mem_cons.mp he with rfl | h2
          · rfl
          · exact ih fx' hr e h2

end PNbot

namespace PNbot

theorem seqLoop_delete_iff (w : World) (id : String) (dg : Bytes) (orig : NEvent)
    (er bh bhash : String) (seqs : List Sequence) (fx : List Effect)
    (h : seqLoop w id dg orig er bh bhash seqs = Except.ok fx) :
    ((Effect.removeFile (otsPath id) ∈ fx ∨ Effect.removeFile (relayPath id) ∈ fx ∨
        Effect.removeFile (eventPath id) ∈ fx) ↔ fx.any isPubSuccess = true)
    ∧ ((Effect.removeFile (otsPath id) ∈ fx ∧ Effect.removeFile (relayPath id) ∈ fx ∧
        Effect.removeFile (eventPath id) ∈ fx) ↔ fx.any isPubSuccess = true) := by
  induction seqs generalizing fx with
  | nil =>
    simp only [seqLoop, Except.ok.injEq] at h
    subst h; simp
  | cons seq rest ih =>
    simp only [seqLoop] at h
    split at h
    · split at h
      · simp at h
      · rename_i fx' hr
        simp only [Except.ok.injEq] at h; subst h
        have := ih fx' hr
        simpa [isPubSuccess] using this
    · split at h
      · split at h
        · simp at h
        · rename_i sev hs
          split at h
          · rename_i hp
            simp only [beq_iff_eq] at hp
            simp only [Except.ok.injEq] at h; subst h
            rw [hp]
            simp [isPubSuccess]
          · rename_i hp
            simp only [Except.ok.injEq] at h; subst h
            cases hpv : w.publish er sev with
            | none => simp [hpv, isPubSuccess]
            | some st =>
              cases st with
              | succeeded => rw [hpv] at hp; simp at hp
              | sent => simp [hpv, isPubSuccess]
              | failed => simp [hpv, isPubSuccess]
      · split at h
        · simp at h
        · rename_i fx' hr
          simp only [Except.ok.injEq] at h; subst h
          have := ih fx' hr
          simpa [isPubSuccess] using this

theorem seqLoop_noremove (w : World) (id : String) (dg : Bytes) (orig : NEvent)
    (er bh bhash : String) (seqs : List Sequence) (fx : List Effect)
    (hpub : ∀ r e, w.publish r e ≠ some PubStatus.succeeded)
    (h : seqLoop w id dg orig er bh bhash seqs = Except.ok fx) :
    ∀ e ∈ fx, isRemoveFile e = false := by
  induction seqs generalizing fx with
  | nil =>
    simp only [seqLoop, Except.ok.injEq] at h
    subst h; intro e he; cases he
  | cons seq rest ih =>
    simp only [seqLoop] at h
    split at h
    · split at h
      · simp at h
      · rename_i fx' hr
        simp only [Except.ok.injEq] at h; subst h
        intro e he
        rcases List.mem_cons.mp he with rfl | h2
        · rfl
        · exact ih fx' hr e h2
    · split at h
      · split at h
        · simp at h
        · rename_i sev hs
          split at h
          · rename_i hp
            simp only [beq_iff_eq] at hp
            exact absurd hp (hpub er sev)
          · simp only [Except.ok.injEq] at h; subst h
            intro e he
            simp only [List.mem_cons, List.not_mem_nil, or_false] at he
            rcases he with rfl | rfl <;> rfl
      · split at h
        · simp at h
        · rename_i fx' hr
          simp only [Except.ok.injEq] at h; subst h
          intro e he
          rcases List.mem_cons.mp he with rfl | h2
          · rfl
          · exact ih fx' hr e h2

theorem seqLoop_bound (w : World) (id : String) (dg : Bytes) (orig : NEvent)
    (er bh bhash : String) (seqs : List Sequence) (fx : List Effect)
    (h : seqLoop w id dg orig er bh bhash seqs = Except.ok fx) :
    (fx.filter isPubAttempt).length ≤ 1 ∧ noUpgAfterPub fx = true ∧
      (fx.filter isUpgCall).length ≤ seqs.length := by
  induction seqs generalizing fx with
  | nil =>
    simp only [seqLoop, Except.ok.injEq] at h
    subst h; simp [noUpgAfterPub]
  | cons seq rest ih =>
    simp only [seqLoop] at h
    split at h
    · split at h
      · simp at h
      · rename_i fx' hr
        simp only [Except.ok.injEq] at h; subst h
        obtain ⟨h1, h2, h3⟩ := ih fx' hr
        refine ⟨?_, ?_, ?_⟩
        · simpa [isPubAttempt] using h1
        · simpa [noUpgAfterPub, isPubAttempt] using h2
        · simp only [List.filter_cons, isUpgCall, List.length_cons, List.length]
          simpa [isUpgCall] using Nat.succ_le_succ h3
    · split at h
      · split at h
        · simp at h
        · rename_i sev hs
          split at h
          · simp only [Except.ok.injEq] at h; subst h
            refine ⟨?_, ?_, ?_⟩
            · simp [isPubAttempt, isUpgCall]
            · simp [noUpgAfterPub, isPubAttempt, isUpgCall]
            · simp only [List.filter_cons, isUpgCall, List.length_cons]
              simp [isUpgCall]
          · simp only [Except.ok.injEq] at h; subst h
            refine ⟨?_, ?_, ?_⟩
            · simp [isPubAttempt, isUpgCall]
            · simp [noUpgAfterPub, isPubAttempt, isUpgCall]
            · simp [isUpgCall]
      · split at h
        · simp at h
        · rename_i fx' hr
          simp only [Except.ok.injEq] at h; subst h
          obtain ⟨h1, h2, h3⟩ := ih fx' hr
          refine ⟨?_, ?_, ?_⟩
          · simpa [isPubAttempt] using h1
          · simpa [noUpgAfterPub, isPubAttempt] using h2
          · simpa [isUpgCall] using Nat.succ_le_succ h3

theorem seqLoop_okE (w : World) (id : String) (dg : Bytes) (orig : NEvent)
    (er bh bhash : String) (seqs : List Sequence)
    (hsign : ∀ e, w.signEvent e ≠ none) :
    okE (seqLoop w id dg orig er bh bhash seqs) = true := by
  induction seqs with
  | nil => rfl
  | cons seq rest ih =>
    simp only [seqLoop]
    split
    · cases hr : seqLoop w id dg orig er bh bhash rest with
      | error p => rw [hr] at ih; simp [okE] at ih
      | ok fx => simp [okE]
    · split
      · split
        · rename_i heq
          exact absurd heq (hsign _)
        · split <;> rfl
      · cases hr : seqLoop w id dg orig er bh bhash rest with
        | error p => rw [hr] at ih; simp [okE] at ih
        | ok fx => simp [okE]

theorem seqLoop_upgraded (w : World) (id : String) (dg : Bytes) (orig : NEvent)
    (er bh bhash : String) (seq newSeq : Sequence) (rest : List Sequence) (sev : NEvent)
    (hu : w.upgrade seq dg = some newSeq)
    (hrel : w.ensureRelay er = true)
    (hs : w.signEvent (completionEvent w dg newSeq orig er bh bhash) = some sev) :
    seqLoop w id dg orig er bh bhash (seq :: rest) =
      Except.ok (Effect.upgradeCall id seq ::
        Effect.publishAttempt er sev (w.publish er sev) ::
        (if w.publish er sev == some PubStatus.succeeded
         then [Effect.removeFile (otsPath id), Effect.removeFile (relayPath id),
               Effect.removeFile (eventPath id)]
         else [])) := by
  simp only [seqLoop, hu, hrel, if_true, hs]
  by_cases hp : (w.publish er sev == some PubStatus.succeeded) = true <;> simp [hp]

end PNbot

namespace PNbot

theorem procFile_shape (w : World) (fs : FS) (bh bhash fn : String)
    (res : Except SignPanic (List Effect)) (h : procFile w fs bh bhash fn = res) :
    res = Except.ok [] ∨
      ∃ id dg orig er seqs, seqLoop w id dg orig er bh bhash seqs = res := by
  simp only [procFile] at h
  repeat' split at h
  all_goals first
    | (left; exact h.symm)
    | (right; exact ⟨_, _, _, _, _, h⟩)

theorem procFiles_mem (w : World) (bh bhash : String) (files : List String)
    (fs : FS) (fx : List Effect)
    (h : procFiles w fs bh bhash files = Except.ok fx) :
    ∀ e ∈ fx, matEffect e = true := by
  induction files generalizing fs fx with
  | nil =>
    simp only [procFiles, Except.ok.injEq] at h
    subst h; intro e he; cases he
  | cons f rest ih =>
    simp only [procFiles] at h
    split at h
    · simp at h
    · rename_i fx1 hf
      split at h
      · simp at h
      · rename_i more hr
        simp only [Except.ok.injEq] at h; subst h
        intro e he
        rcases List.mem_append.mp he with h1 | h2
        · rcases procFile_shape w fs bh bhash f _ hf with hsh | ⟨id, dg, orig, er, seqs, hsl⟩
          · simp only [Except.ok.injEq] at hsh
            subst hsh; cases h1
          · exact seqLoop_mem w id dg orig er bh bhash seqs fx1 hsl e h1
        · exact ih _ _ hr e h2

theorem procFiles_noremove (w : World) (bh bhash : String) (files : List String)
    (fs : FS) (fx : List Effect)
    (hpub : ∀ r e, w.publish r e ≠ some PubStatus.succeeded)
    (h : procFiles w fs bh bhash files = Except.ok fx) :
    ∀ e ∈ fx, isRemoveFile e = false := by
  induction files generalizing fs fx with
  | nil =>
    simp only [procFiles, Except.ok.injEq] at h
    subst h; intro e he; cases he
  | cons f rest ih =>
    simp only [procFiles] at h
    split at h
    · simp at h
    · rename_i fx1 hf
      split at h
      · simp at h
      · rename_i more hr
        simp only [Except.ok.injEq] at h; subst h
        intro e he
        rcases List.mem_append.mp he with h1 | h2
        · rcases procFile_shape w fs bh bhash f _ hf with hsh | ⟨id, dg, orig, er, seqs, hsl⟩
          · simp only [Except.ok.injEq] at hsh
            subst hsh; cases h1
          · exact seqLoop_noremove w id dg orig er bh bhash seqs fx1 hpub hsl e h1
        · exact ih _ _ hr e h2

theorem runCycle_mem (inp : CycleIn) (out : CycleOut)
    (h : runCycle inp = Except.ok out) :
    ∀ e ∈ out.effects, matEffect e = true := by
  unfold runCycle at h
  split at h
  · simp only [Except.ok.injEq] at h; subst h; intro e he; simp at he
  · split at h
    · simp only [Except.ok.injEq] at h; subst h; intro e he; simp at he
    · split at h
      · simp only [Except.ok.injEq] at h; subst h; intro e he; simp at he
      · split at h
        · simp at h
        · rename_i fx hp
          simp only [Except.ok.injEq] at h; subst h
          exact procFiles_mem _ _ _ _ _ _ hp

theorem runCycle_noremove (inp : CycleIn) (out : CycleOut)
    (hpub : ∀ r e, inp.w.publish r e ≠ some PubStatus.succeeded)
    (h : runCycle inp = Except.ok out) :
    ∀ e ∈ out.effects, isRemoveFile e = false := by
  unfold runCycle at h
  split at h
  · simp only [Except.ok.injEq] at h; subst h; intro e he; simp at he
  · split at h
    · simp only [Except.ok.injEq] at h; subst h; intro e he; simp at he
    · split at h
      · simp only [Except.ok.injEq] at h; subst h; intro e he; simp at he
      · split at h
        · simp at h
        · rename_i fx hp
          simp only [Except.ok.injEq] at h; subst h
          exact procFiles_noremove _ _ _ _ _ _ hpub hp

theorem matEffect_not_write (e : Effect) (h : matEffect e = true) :
    isWriteFile e = false ∧ isStampCall e = false := by
  cases e <;> simp_all [matEffect, isUpgCall, isPubAttempt, isRemoveFile, isWriteFile, isStampCall]

theorem applyEffects_neutral (fs : FS) (fx : List Effect)
    (h : ∀ e ∈ fx, isWriteFile e = false ∧ isRemoveFile e = false) :
    applyEffects fs fx = fs := by
  induction fx generalizing fs with
  | nil => rfl
  | cons e rest ih =>
    have he := h e (List.mem_cons_self e rest)
    have h1 : applyEffect fs e = fs := by
      cases e with
      | writeFile p b => simp [isWriteFile] at he
      | removeFile p => simp [isRemoveFile] at he
      | upgradeCall i s => rfl
      | stampCall d => rfl
      | publishAttempt r ev res => rfl
    show applyEffects (applyEffect fs e) rest = fs
    rw [h1]
    exact ih fs (fun e' he' => h e' (List.mem_cons_of_mem _ he'))

theorem procFile_okE (w : World) (fs : FS) (bh bhash fn : String)
    (hsign : ∀ e, w.signEvent e ≠ none) :
    okE (procFile w fs bh bhash fn) = true := by
  rcases procFile_shape w fs bh bhash fn _ rfl with hsh | ⟨id, dg, orig, er, seqs, hsl⟩
  · rw [hsh]; rfl
  · rw [← hsl]
    exact seqLoop_okE w id dg orig er bh bhash seqs hsign

theorem procFiles_okE (w : World) (bh bhash : String) (files : List String) (fs : FS)
    (hsign : ∀ e, w.signEvent e ≠ none) :
    okE (procFiles w fs bh bhash files) = true := by
  induction files generalizing fs with
  | nil => rfl
  | cons f rest ih =>
    simp only [procFiles]
    split
    · rename_i p hf
      have := procFile_okE w fs bh bhash f hsign
      rw [hf] at this
      simp [okE] at this
    · rename_i fx1 hf
      split
      · rename_i p hr
        have := ih (applyEffects fs fx1)
        rw [hr] at this
        simp [okE] at this
      · rfl

theorem runCycle_okE (inp : CycleIn)
    (hsign : ∀ e, inp.w.signEvent e ≠ none) :
    okE (runCycle inp) = true := by
  unfold runCycle
  split
  · rfl
  · rename_i files hfiles
    split
    · rfl
    · rename_i bh hbh
      split
      · rfl
      · rename_i bhash hbhash
        split
        · rename_i p hp
          have h2 := procFiles_okE inp.w bh bhash files inp.fs hsign
          rw [hp] at h2
          simp [okE] at h2
        · rfl

theorem cyclePanic_none (inp : CycleIn)
    (hsign : ∀ e, inp.w.signEvent e ≠ none) :
    cyclePanic inp = none := by
  cases hc : runCycle inp with
  | ok o => simp [cyclePanic, hc]
  | error p =>
    have := runCycle_okE inp hsign
    rw [hc] at this
    simp [okE] at this

end PNbot

namespace PNbot

/-! ## Claim C1 -/

/-- C1 (amended): for every record reaching the maturation loop's
per-sequence stage, the record's three artifacts are removed iff some
publish attempt in that stage returned a nil error with status Succeeded —
irrespective of whether the upgraded sequence's terminal step is confirmed;
and whenever no publish reported success, all three artifacts remain
intact. -/
theorem C1_delete_iff_publish_success (w : World) (id : String) (dg : Bytes)
    (orig : NEvent) (er bh bhash : String) (seqs : List Sequence) (fx : List Effect)
    (h : seqLoop w id dg orig er bh bhash seqs = Except.ok fx) :
    ((Effect.removeFile (otsPath id) ∈ fx ∧ Effect.removeFile (relayPath id) ∈ fx ∧
        Effect.removeFile (eventPath id) ∈ fx) ↔ fx.any isPubSuccess = true)
    ∧ (fx.any isPubSuccess = false →
        Effect.removeFile (otsPath id) ∉ fx ∧ Effect.removeFile (relayPath id) ∉ fx ∧
        Effect.removeFile (eventPath id) ∉ fx) := by
  obtain ⟨hor, hand⟩ := seqLoop_delete_iff w id dg orig er bh bhash seqs fx h
  refine ⟨hand, ?_⟩
  intro hfalse
  have hnot : ¬(Effect.removeFile (otsPath id) ∈ fx ∨ Effect.removeFile (relayPath id) ∈ fx ∨
      Effect.removeFile (eventPath id) ∈ fx) := by
    intro hc
    have hx := hor.mp hc
    rw [hfalse] at hx
    exact Bool.noConfusion hx
  push_neg at hnot
  exact ⟨hnot.1, hnot.2.1, hnot.2.2⟩

/-- C1 witness: the theorem applied to a concrete record whose single
sequence upgrades and publishes successfully. -/
theorem C1_witness :
    ((Effect.removeFile (otsPath idA) ∈ fxB1 ∧ Effect.removeFile (relayPath idA) ∈ fxB1 ∧
        Effect.removeFile (eventPath idA) ∈ fxB1) ↔ fxB1.any isPubSuccess = true)
    ∧ (fxB1.any isPubSuccess = false →
        Effect.removeFile (otsPath idA) ∉ fxB1 ∧ Effect.removeFile (relayPath idA) ∉ fxB1 ∧
        Effect.removeFile (eventPath idA) ∉ fxB1) :=
  C1_delete_iff_publish_success wBase idA dgA origEvA relayA "800001" "hh" [seqP] fxB1 rfl

/-- C1 counterexample: a record whose upgrade returns a sequence that is
still pending (terminal step carries no block attestation) is nevertheless
deleted when the publish succeeds, so deletion does not require a
confirmed/complete proof. -/
theorem C1_counterexample :
    wPendDel.upgrade seqP dgA = some seqP ∧ isPendingTerminal seqP = true ∧
    Effect.removeFile (otsPath idA) ∈ fxPD ∧ Effect.removeFile (relayPath idA) ∈ fxPD ∧
    Effect.removeFile (eventPath idA) ∈ fxPD := by
  refine ⟨rfl, rfl, ?_, ?_, ?_⟩ <;> decide

/-! ## Claim C2 -/

/-- C2 (amended): the maturation cycle never writes to the store, so a
successfully upgraded but still-pending sequence is not persisted; instead
the loop proceeds exactly as for a confirmed sequence: it builds the
completion event, attempts the publish, and deletes the record exactly when
that publish reports success. -/
theorem C2_no_persist_still_publishes :
    (∀ (inp : CycleIn) (out : CycleOut), runCycle inp = Except.ok out →
      ∀ e ∈ out.effects, isWriteFile e = false)
    ∧ (∀ (w : World) (id : String) (dg : Bytes) (orig : NEvent) (er bh bhash : String)
        (seq newSeq : Sequence) (rest : List Sequence) (sev : NEvent),
        w.upgrade seq dg = some newSeq →
        isPendingTerminal newSeq = true →
        w.ensureRelay er = true →
        w.signEvent (completionEvent w dg newSeq orig er bh bhash) = some sev →
        seqLoop w id dg orig er bh bhash (seq :: rest) =
          Except.ok (Effect.upgradeCall id seq ::
            Effect.publishAttempt er sev (w.publish er sev) ::
            (if w.publish er sev == some PubStatus.succeeded
             then [Effect.removeFile (otsPath id), Effect.removeFile (relayPath id),
                   Effect.removeFile (eventPath id)]
             else []))) := by
  constructor
  · intro inp out h e he
    exact (matEffect_not_write e (runCycle_mem inp out h e he)).1
  · intro w id dg orig er bh bhash seq newSeq rest sev hu hpend hrel hs
    exact seqLoop_upgraded w id dg orig er bh bhash seq newSeq rest sev hu hrel hs

/-- C2 witness: the theorem applied to a concrete cycle whose upgrade yields
a pending-terminal sequence. -/
theorem C2_witness :
    (Effect.upgradeCall idA seqP ∈ cycleEffects inpPF ∧
      isWriteFile (Effect.upgradeCall idA seqP) = false)
    ∧ seqLoop wPendFail idA dgA origEvA relayA "800001" "hh" [seqP] =
        Except.ok (Effect.upgradeCall idA seqP ::
          Effect.publishAttempt relayA sevPF (wPendFail.publish relayA sevPF) ::
          (if wPendFail.publish relayA sevPF == some PubStatus.succeeded
           then [Effect.removeFile (otsPath idA), Effect.removeFile (relayPath idA),
                 Effect.removeFile (eventPath idA)]
           else [])) := by
  refine ⟨⟨by decide, ?_⟩, ?_⟩
  · exact C2_no_persist_still_publishes.1 inpPF outPF rfl _ (by decide)
  · exact C2_no_persist_still_publishes.2 wPendFail idA dgA origEvA relayA "800001" "hh"
      seqP seqP [] sevPF rfl rfl rfl rfl

/-- C2 counterexample: on a record whose upgrade succeeds with a
pending-terminal sequence, the cycle writes nothing (the claimed overwrite
of the proof artifact does not happen) and it does attempt a publish (the
claimed suppression of publishing does not happen). -/
theorem C2_counterexample :
    wPendFail.upgrade seqP dgA = some seqP ∧ isPendingTerminal seqP = true ∧
    fxPF.all (fun e => !isWriteFile e) = true ∧ fxPF.any isPubAttempt = true ∧
    fxPF.any isRemoveFile = false := by
  refine ⟨rfl, rfl, ?_, ?_, ?_⟩ <;> decide

/-! ## Claim C3 -/

/-- C3: when either chain-tip fetch fails, the cycle aborts with no record
read, mutated, published, or deleted (no effects at all) — but the loop does
not wait for the next one-hour tick: the `continue` jumps back to the top of
the loop, skipping the sleep, so the next action is an immediate retry. -/
theorem C3_fetch_failure_aborts_without_sleep (inp : CycleIn)
    (h : inp.heightFetch = none ∨ inp.hashFetch = none) :
    runCycle inp = Except.ok ⟨[], NextAct.retryNow⟩ := by
  unfold runCycle
  cases hd : inp.dirListing with
  | none => rfl
  | some files =>
    rcases h with h | h
    · rw [h]
    · rw [h]
      cases hh : inp.heightFetch with
      | none => rfl
      | some bh => rfl

/-- C3 witness: a concrete cycle whose height fetch fails. -/
theorem C3_witness :
    (inpHF.heightFetch = none ∨ inpHF.hashFetch = none) ∧
    runCycle inpHF = Except.ok ⟨[], NextAct.retryNow⟩ :=
  ⟨Or.inl rfl, C3_fetch_failure_aborts_without_sleep inpHF (Or.inl rfl)⟩

/-! ## Claim C4 -/

theorem hexFull_len : ∀ (cs : List Char) (bs : Bytes),
    hexDecodeFull cs = some bs → 2 * bs.length = cs.length
  | [], bs, h => by
    simp only [hexDecodeFull, Option.some.injEq] at h
    subst h; rfl
  | [_], bs, h => by simp [hexDecodeFull] at h
  | a :: b :: rest, bs, h => by
    simp only [hexDecodeFull] at h
    split at h
    · rename_i x y tail hx hy htail
      simp only [Option.some.injEq] at h
      subst h
      have ih := hexFull_len rest tail htail
      simp only [List.length_cons]
      omega
    · cases h

/-- C4 (amended): every identifier the maturation loop accepts out of the
store's scan has length exactly 64 characters — hence when it is valid hex
it decodes to exactly 32 bytes — and wrong-length names are excluded; but
hex validity itself is never checked, so a 64-character non-hex name is
accepted (see the counterexample). -/
theorem C4_scan_length_guard (names : List String) (id : String)
    (h : id ∈ scanIds names) :
    id.toList.length = 64 ∧ ∀ bs, hexDecodeFull id.toList = some bs → bs.length = 32 := by
  have hlen : (id.toList.length == 64) = true := (List.mem_filter.mp h).2
  have hlen2 : id.toList.length = 64 := by simpa using hlen
  refine ⟨hlen2, ?_⟩
  intro bs hbs
  have hl := hexFull_len id.toList bs hbs
  omega

/-- C4 witness: the theorem applied to a well-formed stored filename. -/
theorem C4_witness :
    idA ∈ scanIds [fnA] ∧ idA.toList.length = 64 ∧
    (List.replicate 32 170 : Bytes).length = 32 :=
  ⟨by decide, (C4_scan_length_guard [fnA] idA (by decide)).1,
    (C4_scan_length_guard [fnA] idA (by decide)).2 (List.replicate 32 170) (by decide)⟩

/-- C4 counterexample: a filename whose 64-character identifier is not hex
is accepted by the scan, yet the identifier does not decode to 32 bytes
(strict decoding fails, and the error-discarding decode yields zero
bytes). -/
theorem C4_counterexample :
    idZ ∈ scanIds [fnZ] ∧ hexDecodeFull idZ.toList = none ∧
    hexDecodePartial idZ.toList = [] := by
  refine ⟨?_, ?_, ?_⟩ <;> decide

/-! ## Claim C5 -/

/-- C5: after a fully successful first ingestion of an event, its proof
artifact is present in the store, yet the dedup guard checks a different
path (without the data/ subdirectory), so a redelivery of the same id is not
skipped: it re-writes the artifacts and re-submits the digest to the
calendar server, contradicting the idempotence the guard was written for. -/
theorem C5_dedup_guard_misses :
    fsHas fs1A (otsPath idA) = true ∧
    fsHas fs1A (statOtsPath idA) = false ∧
    statOtsPath idA ≠ otsPath idA ∧
    (ingestStep wBase fs1A evA).2.any isStampCall = true ∧
    (ingestStep wBase fs1A evA).2.any isWriteFile = true := by
  refine ⟨?_, ?_, ?_, ?_, ?_⟩ <;> decide

end PNbot

namespace PNbot

/-! ## Claim C6 -/

/-- C6 (amended): per record and cycle, the sequence loop makes at most one
publish attempt and stops once a sequence has reached the publish step, but
a sequence whose upgrade or relay acquisition fails does not stop the loop —
the next sequence is tried — so the per-record bound is one upgrade attempt
per sequence (not one per record) and one publish attempt per record. -/
theorem C6_stops_after_first_publishable (w : World) (id : String) (dg : Bytes)
    (orig : NEvent) (er bh bhash : String) (seqs : List Sequence) (fx : List Effect)
    (h : seqLoop w id dg orig er bh bhash seqs = Except.ok fx) :
    (fx.filter isPubAttempt).length ≤ 1 ∧ noUpgAfterPub fx = true ∧
      (fx.filter isUpgCall).length ≤ seqs.length :=
  seqLoop_bound w id dg orig er bh bhash seqs fx h

/-- C6 witness: the theorem applied to a concrete two-sequence record. -/
theorem C6_witness :
    (fxUF.filter isPubAttempt).length ≤ 1 ∧ noUpgAfterPub fxUF = true ∧
      (fxUF.filter isUpgCall).length ≤ ([seqP, seqB] : List Sequence).length :=
  C6_stops_after_first_publishable wUpgFail idA dgA origEvA relayA "800001" "hh"
    [seqP, seqB] fxUF rfl

/-- C6 counterexample: a record with two sequences whose upgrades both fail
gets two upgrade attempts in a single cycle, so processing does not stop
after the first failed attempt. -/
theorem C6_counterexample :
    fxUF = [Effect.upgradeCall idA seqP, Effect.upgradeCall idA seqB] ∧
    (fxUF.filter isUpgCall).length = 2 := by
  refine ⟨?_, ?_⟩ <;> decide

/-! ## Claim C7 -/

/-- C7 (amended): the maturation loop never submits a digest to the
calendar's stamp operation, and a cycle in which no publish reports success
leaves the filesystem exactly as it was — so after a confirmed upgrade whose
publish failed, the next cycle re-reads the original persisted proof and
re-runs the upgrade on it (the upgraded sequence itself is never
persisted). -/
theorem C7_retry_from_persisted_proof :
    (∀ (inp : CycleIn) (out : CycleOut), runCycle inp = Except.ok out →
      ∀ e ∈ out.effects, isStampCall e = false)
    ∧ (∀ (inp : CycleIn) (out : CycleOut), runCycle inp = Except.ok out →
        (∀ r e, inp.w.publish r e ≠ some PubStatus.succeeded) →
        applyEffects inp.fs out.effects = inp.fs) := by
  constructor
  · intro inp out h e he
    exact (matEffect_not_write e (runCycle_mem inp out h e he)).2
  · intro inp out h hpub
    refine applyEffects_neutral inp.fs out.effects ?_
    intro e he
    exact ⟨(matEffect_not_write e (runCycle_mem inp out h e he)).1,
      runCycle_noremove inp out hpub h e he⟩

/-- C7 witness: the theorem applied to a concrete cycle whose upgrade
confirms but whose publish fails. -/
theorem C7_witness :
    (Effect.upgradeCall idA seqP ∈ cycleEffects inpC7 ∧
      isStampCall (Effect.upgradeCall idA seqP) = false) ∧
    applyEffects inpC7.fs (cycleEffects inpC7) = inpC7.fs := by
  refine ⟨⟨by decide, ?_⟩, ?_⟩
  · exact C7_retry_from_persisted_proof.1 inpC7 outC7 rfl _ (by decide)
  · exact C7_retry_from_persisted_proof.2 inpC7 outC7 rfl (fun r e h => Option.noConfusion h)

/-- C7 counterexample: after a cycle in which the upgrade returned a
confirmed sequence but the publish failed, the store still holds the
original pre-upgrade proof bytes — not the serialization of the upgraded
proof — and the next cycle calls upgrade on the original stored sequence
again; the retry is not derived from an "already-upgraded" persisted
proof, because no such proof is ever persisted. -/
theorem C7_counterexample :
    wConfFail.upgrade seqP dgA = some seqB ∧
    (cycleEffects inpC7).any isPubAttempt = true ∧
    (cycleEffects inpC7).any isPubSuccess = false ∧
    fs1C7 = fsA ∧
    fsGet fs1C7 (otsPath idA) = some otsBytesA ∧
    otsBytesA ≠ wConfFail.serialize ⟨dgA, [seqB]⟩ ∧
    Effect.upgradeCall idA seqP ∈ cycleEffects { inpC7 with fs := fs1C7 } := by
  refine ⟨rfl, ?_, ?_, ?_, ?_, ?_, ?_⟩ <;> decide

/-! ## Claim C8 -/

/-- C8: a missing SECRET_KEY makes envconfig.Process fail, and main exits
fatally at startup before either loop starts. -/
theorem C8_missing_secret_is_fatal (env : List (String × String))
    (h : envLookup env "SECRET_KEY" = none) :
    mainStart env = StartOutcome.fatalConfig "required key SECRET_KEY missing value" := by
  unfold mainStart processSettings
  rw [h]

/-- C8 witness: an environment carrying only CALENDAR. -/
theorem C8_witness :
    envLookup [("CALENDAR", "c")] "SECRET_KEY" = none ∧
    mainStart [("CALENDAR", "c")] =
      StartOutcome.fatalConfig "required key SECRET_KEY missing value" :=
  ⟨by decide, C8_missing_secret_is_fatal [("CALENDAR", "c")] (by decide)⟩

/-! ## Claim C9 -/

theorem digest32_len (bs : Bytes) : (digest32 bs).length = 32 := by
  simp [digest32]
  omega

/-- C9: the ingestion loop discards the hex-decode error of the incoming
id: for an id that is not 64 characters of valid hex, processing continues —
the zero-padded 32-byte digest built from whatever bytes decoded is
submitted to stamp, and all three artifacts are written at paths keyed by
the raw id string. -/
theorem C9_invalid_hex_still_ingested (w : World) (fs : FS) (ev : InEvent) (sq : Sequence)
    (hhex : isHex64 ev.id = false)
    (hstat : fsHas fs (statOtsPath ev.id) = false)
    (hw1 : w.writeOk (eventPath ev.id) = true)
    (hw2 : w.writeOk (relayPath ev.id) = true)
    (hw3 : w.writeOk (otsPath ev.id) = true)
    (hstamp : w.stamp (digest32 (hexDecodePartial ev.id.toList)) = some sq) :
    (digest32 (hexDecodePartial ev.id.toList)).length = 32 ∧
    ingestStep w fs ev =
      (fsWrite (fsWrite (fsWrite fs (eventPath ev.id) (strBytes ev.serialized))
          (relayPath ev.id) (strBytes ev.relayUrl))
        (otsPath ev.id) (w.serialize ⟨hexDecodePartial ev.id.toList, [sq]⟩),
       [Effect.writeFile (eventPath ev.id) (strBytes ev.serialized),
        Effect.writeFile (relayPath ev.id) (strBytes ev.relayUrl),
        Effect.stampCall (digest32 (hexDecodePartial ev.id.toList)),
        Effect.writeFile (otsPath ev.id) (w.serialize ⟨hexDecodePartial ev.id.toList, [sq]⟩)]) := by
  refine ⟨digest32_len _, ?_⟩
  simp [ingestStep, hstat, hw1, hw2, hw3]
  rw [show w.stamp (digest32 (hexDecodePartial ev.id.data)) = some sq from hstamp]

/-- C9 witness: the theorem applied to the two-character non-hex id "zz". -/
theorem C9_witness :
    isHex64 evZ.id = false ∧
    ((digest32 (hexDecodePartial evZ.id.toList)).length = 32 ∧
     ingestStep wBase [] evZ =
       (fsWrite (fsWrite (fsWrite [] (eventPath evZ.id) (strBytes evZ.serialized))
           (relayPath evZ.id) (strBytes evZ.relayUrl))
         (otsPath evZ.id) (wBase.serialize ⟨hexDecodePartial evZ.id.toList, [seqP]⟩),
        [Effect.writeFile (eventPath evZ.id) (strBytes evZ.serialized),
         Effect.writeFile (relayPath evZ.id) (strBytes evZ.relayUrl),
         Effect.stampCall (digest32 (hexDecodePartial evZ.id.toList)),
         Effect.writeFile (otsPath evZ.id)
           (wBase.serialize ⟨hexDecodePartial evZ.id.toList, [seqP]⟩)])) :=
  ⟨by decide, C9_invalid_hex_still_ingested wBase [] evZ seqP (by decide) (by decide)
    rfl rfl rfl rfl⟩

/-! ## Claim C10 -/

/-- C10: a failing sign inside the maturation cycle is the only failure that
panics — whenever the sign oracle is total, a cycle never panics no matter
which other calls fail — and a sign failure terminates the maturation
goroutine, so no future cycle runs for the rest of the process lifetime. -/
theorem C10_sign_failure_panics :
    (∀ inp : CycleIn, (∀ e, inp.w.signEvent e ≠ none) → cyclePanic inp = none)
    ∧ (∀ rest : List CycleIn,
        runLoop (inpSF :: rest) = Except.error (SignPanic.failedToSign evSF)) := by
  constructor
  · exact cyclePanic_none
  · intro rest
    have h1 : runCycle inpSF = Except.error (SignPanic.failedToSign evSF) := rfl
    simp only [runLoop, h1]

/-- C10 witness: a concrete panic-free cycle and a concrete panicking
schedule. -/
theorem C10_witness :
    cyclePanic inpOkB = none ∧
    runLoop [inpSF] = Except.error (SignPanic.failedToSign evSF) :=
  ⟨C10_sign_failure_panics.1 inpOkB (fun _ h => Option.noConfusion h),
   C10_sign_failure_panics.2 []⟩

end PNbot
